import Mathlib

/-!
Verification development for the qpsk-py repository.

Bits are modelled as natural numbers (the numpy uint8 bit arrays hold
values 0 and 1); byte values are natural numbers below 256.  Fallible
Python code (functions that can raise ValueError) is modelled with
Option.  The definitions below are shallow embeddings of:
  - src/src/common/hamming.py   (HammingEncoder, HammingDecoder)
  - src/src/common/packet.py    (PacketProtocol, PacketBuilder)
  - src/src/receiver/decoder.py (PacketDecoder)
  - src/packet_qpsk_rx.py       (the duplicated PacketDecoder copy)
-/

namespace QPSK

/-- Embedding of HammingEncoder.encode_4bits (src/src/common/hamming.py).
The generator matrix G has rows
[1,0,0,0,1,1,0], [0,1,0,0,1,0,1], [0,0,1,0,0,1,1], [0,0,0,1,1,1,1];
codeword j is the GF(2) dot product of the data with column j of G.
A list whose length is not 4 raises ValueError, modelled as none. -/
def encode_4bits (data_bits : List Nat) : Option (List Nat) :=
  match data_bits with
  | [d0, d1, d2, d3] =>
    some [d0 % 2, d1 % 2, d2 % 2, d3 % 2,
          (d0 + d1 + d3) % 2, (d0 + d2 + d3) % 2, (d1 + d2 + d3) % 2]
  | _ => none

/-- High nibble of a byte, the list comprehension
[(byte >> (7-i)) & 1 for i in range(4)] in HammingEncoder.encode_bytes. -/
def hiNibble (byte : Nat) : List Nat :=
  [(byte >>> 7) &&& 1, (byte >>> 6) &&& 1, (byte >>> 5) &&& 1, (byte >>> 4) &&& 1]

/-- Low nibble of a byte, the list comprehension
[(byte >> (3-i)) & 1 for i in range(4)] in HammingEncoder.encode_bytes. -/
def loNibble (byte : Nat) : List Nat :=
  [(byte >>> 3) &&& 1, (byte >>> 2) &&& 1, (byte >>> 1) &&& 1, (byte >>> 0) &&& 1]

/-- Embedding of HammingEncoder.encode_bytes: each byte is split into a
high nibble (bits 7..4) and a low nibble (bits 3..0), each nibble is
encoded to a 7-bit codeword, and the codewords are concatenated. -/
def encode_bytes : List Nat → Option (List Nat)
  | [] => some []
  | byte :: rest => do
    let encoded_high ← encode_4bits (hiNibble byte)
    let encoded_low ← encode_4bits (loNibble byte)
    let tail ← encode_bytes rest
    some (encoded_high ++ (encoded_low ++ tail))

/-- Flip (xor with 1) the bit at index i of a bit list; out-of-range
indices leave the list unchanged (List.set semantics). -/
def flipAt (l : List Nat) (i : Nat) : List Nat :=
  l.set i ((l.getD i 0) ^^^ 1)

/-- Embedding of HammingDecoder.decode_7bits (src/src/common/hamming.py).
The parity check matrix H has rows
[1,1,0,1,1,0,0], [1,0,1,1,0,1,0], [0,1,1,1,0,0,1]; the syndrome is
H dot r mod 2.  When the syndrome is nonzero the code flips the bit at
index (s0*4 + s1*2 + s2) - 1 and reports a correction; the data bits are
positions 0..3 of the (possibly modified) word.  A list whose length is
not 7 raises ValueError, modelled as none. -/
def decode_7bits (received_bits : List Nat) : Option (List Nat × Bool) :=
  match received_bits with
  | [r0, r1, r2, r3, r4, r5, r6] =>
    let s0 := (r0 + r1 + r3 + r4) % 2
    let s1 := (r0 + r2 + r3 + r5) % 2
    let s2 := (r1 + r2 + r3 + r6) % 2
    if s0 = 0 ∧ s1 = 0 ∧ s2 = 0 then
      some ([r0, r1, r2, r3], false)
    else
      let error_position := s0 * 4 + s1 * 2 + s2 * 1
      if 1 ≤ error_position ∧ error_position ≤ 7 then
        some ((flipAt [r0, r1, r2, r3, r4, r5, r6] (error_position - 1)).take 4, true)
      else
        some ([r0, r1, r2, r3], false)
  | _ => none

/-- Recombine a high and a low nibble into a byte value, mirroring the
shift-or loop at the end of HammingDecoder.decode_bytes. -/
def nibblesToByte (high_nibble low_nibble : List Nat) : Nat :=
  ((high_nibble.getD 0 0) <<< 7) ||| ((high_nibble.getD 1 0) <<< 6) |||
  ((high_nibble.getD 2 0) <<< 5) ||| ((high_nibble.getD 3 0) <<< 4) |||
  ((low_nibble.getD 0 0) <<< 3) ||| ((low_nibble.getD 1 0) <<< 2) |||
  ((low_nibble.getD 2 0) <<< 1) ||| ((low_nibble.getD 3 0) <<< 0)

/-- Embedding of HammingDecoder.decode_bytes: consume the input in full
14-bit chunks (the first 7 bits are the high codeword, the next 7 the
low codeword, exactly the slices bits[i:i+7] and bits[i+7:i+14]); a
trailing partial chunk is skipped by the i + 14 <= len guard, which the
catch-all case models.  A byte counts one error when either of its two
codewords reported a correction. -/
def decode_bytes : List Nat → Option (List Nat × Nat)
  | b0 :: b1 :: b2 :: b3 :: b4 :: b5 :: b6 ::
    b7 :: b8 :: b9 :: b10 :: b11 :: b12 :: b13 :: rest =>
    match decode_7bits [b0, b1, b2, b3, b4, b5, b6],
          decode_7bits [b7, b8, b9, b10, b11, b12, b13] with
    | some (high_nibble, error1), some (low_nibble, error2) =>
      match decode_bytes rest with
      | some (decoded, errs) =>
        some (nibblesToByte high_nibble low_nibble :: decoded,
              (if error1 || error2 then 1 else 0) + errs)
      | none => none
    | _, _ => none
  | _ => some ([], 0)

/-- PacketProtocol.PREAMBLE (src/src/common/packet.py). -/
def PREAMBLE : List Nat := [1, 0, 1, 0, 1, 0, 1, 0, 1, 1, 0, 0, 1, 1, 0, 0]

/-- PacketProtocol.START_MARKER. -/
def START_MARKER : List Nat := [1, 1, 1, 1, 0, 0, 0, 0]

/-- PacketProtocol.END_MARKER. -/
def END_MARKER : List Nat := [0, 0, 0, 0, 1, 1, 1, 1]

/-- PacketProtocol.MAX_PAYLOAD_LENGTH. -/
def MAX_PAYLOAD_LENGTH : Nat := 255

/-- PacketProtocol.MIN_PAYLOAD_LENGTH. -/
def MIN_PAYLOAD_LENGTH : Nat := 1

/-- PacketProtocol.HEADER_LENGTH (bytes). -/
def HEADER_LENGTH : Nat := 4

/-- Embedding of PacketBuilder.create_header: 4 header bytes holding the
16-bit payload length, the sequence number and a reserved zero byte; an
out-of-range payload length raises ValueError, modelled as none. -/
def create_header (payload_length sequence_number : Nat) : Option (List Nat) :=
  if payload_length < MIN_PAYLOAD_LENGTH ∨ MAX_PAYLOAD_LENGTH < payload_length then
    none
  else
    some [(payload_length >>> 8) &&& 255, payload_length &&& 255,
          sequence_number &&& 255, 0]

/-- Packet info dictionary returned by PacketBuilder.build_packet. -/
structure BuildInfo where
  payload_length : Nat
  sequence_number : Nat
  preamble_bits : Nat
  start_marker_bits : Nat
  header_bits : Nat
  payload_bits : Nat
  end_marker_bits : Nat
  total_bits : Nat
deriving DecidableEq

/-- Embedding of PacketBuilder.build_packet for a byte-string message:
preamble, start marker, Hamming-encoded header, Hamming-encoded payload
and end marker, concatenated. -/
def build_packet (message : List Nat) (sequence_number : Nat) :
    Option (List Nat × BuildInfo) := do
  let header_bytes ← create_header message.length sequence_number
  let encoded_header ← encode_bytes header_bytes
  let encoded_payload ← encode_bytes message
  let packet_bits :=
    PREAMBLE ++ START_MARKER ++ encoded_header ++ encoded_payload ++ END_MARKER
  some (packet_bits,
    { payload_length := message.length
      sequence_number := sequence_number
      preamble_bits := PREAMBLE.length
      start_marker_bits := START_MARKER.length
      header_bits := encoded_header.length
      payload_bits := encoded_payload.length
      end_marker_bits := END_MARKER.length
      total_bits := packet_bits.length })

/-- Count of positions at which two equal-length bit lists differ; this
is np.sum (chunk != pattern) in the decoder. -/
def countMismatch (a b : List Nat) : Nat :=
  (a.zip b).countP (fun p => p.1 != p.2)

/-- Hamming distance between the window of data starting at offset i and
the pattern; this is the errors value computed for offset i inside
PacketDecoder.find_pattern. -/
def windowDist (data pat : List Nat) (i : Nat) : Nat :=
  countMismatch ((data.drop i).take pat.length) pat

/-- Loop of PacketDecoder.find_pattern (src/src/receiver/decoder.py):
i is the current offset, rem the number of offsets still to scan,
best_pos the best offset so far (-1 initially) and min_errors the best
distance so far (none models float inf, so min_errors.getD (errors+1)
makes the comparison errors < min_errors true when no record exists).
A zero-distance window returns its offset at once (the break: the record
becomes (i, 0) and 0 <= max_errors always holds at the final return). -/
def findPatternGo (data pat : List Nat) (max_errors : Nat) :
    Nat → Nat → Int → Option Nat → Int
  | _, 0, best_pos, min_errors =>
    match min_errors with
    | some m => if m ≤ max_errors then best_pos else -1
    | none => -1
  | i, rem + 1, best_pos, min_errors =>
    let errors := windowDist data pat i
    if errors ≤ max_errors ∧ errors < min_errors.getD (errors + 1) then
      if errors = 0 then (i : Int)
      else findPatternGo data pat max_errors (i + 1) rem (i : Int) (some errors)
    else findPatternGo data pat max_errors (i + 1) rem best_pos min_errors

/-- Embedding of PacketDecoder.find_pattern: scan offsets 0 to
len(data) - len(pattern); when the pattern is longer than the data the
Python range is empty and the function returns -1. -/
def find_pattern (data pat : List Nat) (max_errors : Nat) : Int :=
  if pat.length ≤ data.length then
    findPatternGo data pat max_errors 0 (data.length - pat.length + 1) (-1) none
  else
    -1

/-- Packet info dictionary returned by PacketDecoder.try_decode_packet. -/
structure Packet where
  sequence_number : Nat
  payload_length : Nat
  payload : List Nat
  header_errors : Nat
  payload_errors : Nat
  total_packet_bits : Nat
  packet_number : Nat
deriving DecidableEq, Repr

/-- Minimal packet size gate of decoder.py: preamble + start marker +
encoded header + minimal encoded payload + end marker (102 bits). -/
def min_packet_size : Nat :=
  PREAMBLE.length + START_MARKER.length + HEADER_LENGTH * 14 +
    MIN_PAYLOAD_LENGTH * 14 + END_MARKER.length

/-- Local preamble_pos of try_decode_packet: position of the exact
preamble match (meaningful only when find_pattern is not -1). -/
def preamble_pos (buf : List Nat) : Nat := (find_pattern buf PREAMBLE 0).toNat

/-- Local expected_start_pos of try_decode_packet: where the start
marker is expected, right after the preamble. -/
def expected_start_pos (buf : List Nat) : Nat :=
  preamble_pos buf + PREAMBLE.length

/-- Local start_marker_errors of try_decode_packet: mismatches between
the 8 bits after the preamble and START_MARKER. -/
def start_marker_errors (buf : List Nat) : Nat :=
  countMismatch ((buf.drop (expected_start_pos buf)).take START_MARKER.length)
    START_MARKER

/-- Local header_start of try_decode_packet. -/
def header_start (buf : List Nat) : Nat :=
  expected_start_pos buf + START_MARKER.length

/-- Local header_end of try_decode_packet: 4 bytes = 56 encoded bits of
header after the start marker. -/
def header_end (buf : List Nat) : Nat := header_start buf + HEADER_LENGTH * 14

/-- Local header_bits slice of try_decode_packet. -/
def header_bits (buf : List Nat) : List Nat :=
  (buf.drop (header_start buf)).take (HEADER_LENGTH * 14)

/-- Header parse (header_bytes[0] << 8) | header_bytes[1] of
try_decode_packet. -/
def parsed_payload_length (header_bytes : List Nat) : Nat :=
  ((header_bytes.getD 0 0) <<< 8) ||| header_bytes.getD 1 0

/-- Local payload_end of try_decode_packet, given the parsed payload
length: the payload starts at header_end and spans 14 bits per byte. -/
def payload_end (buf : List Nat) (payload_length : Nat) : Nat :=
  header_end buf + payload_length * 14

/-- Local end_marker_end of try_decode_packet. -/
def end_marker_end (buf : List Nat) (payload_length : Nat) : Nat :=
  payload_end buf payload_length + END_MARKER.length

/-- Local end_marker_errors of try_decode_packet: mismatches between the
8 bits after the payload and END_MARKER. -/
def end_marker_errors (buf : List Nat) (payload_length : Nat) : Nat :=
  countMismatch ((buf.drop (payload_end buf payload_length)).take END_MARKER.length)
    END_MARKER

/-- Embedding of PacketDecoder.try_decode_packet
(src/src/receiver/decoder.py).  The mutable deque is modelled by passing
the buffer in and returning the buffer left after the attempt together
with the optional decoded packet; packetsReceived is the counter used
for the packet_number field.  The Python locals preamble_pos,
expected_start_pos, header_start, header_end, payload_end and
end_marker_end are the helper definitions above.  The popleft loops
remove preamble_pos + 1 (resp. end_marker_end) bits from the buffer
head, which is List.drop.  The try/except around the header and payload
decoding catches the ValueError of decode_7bits, modelled by the none
branches of the two matches on decode_bytes. -/
def try_decode_packet (buf : List Nat) (packetsReceived : Nat) :
    List Nat × Option Packet :=
  if buf.length < min_packet_size then (buf, none)
  else if find_pattern buf PREAMBLE 0 = -1 then (buf, none)
  else if buf.length < expected_start_pos buf + START_MARKER.length then (buf, none)
  else if 0 < start_marker_errors buf then (buf.drop (preamble_pos buf + 1), none)
  else if buf.length < header_end buf then (buf, none)
  else
    match decode_bytes (header_bits buf) with
    | none => (buf.drop (preamble_pos buf + 1), none)
    | some (header_bytes, header_errors) =>
      if header_bytes.length < HEADER_LENGTH then (buf, none)
      else if parsed_payload_length header_bytes < MIN_PAYLOAD_LENGTH ∨
          MAX_PAYLOAD_LENGTH < parsed_payload_length header_bytes then
        (buf.drop (preamble_pos buf + 1), none)
      else if buf.length < end_marker_end buf (parsed_payload_length header_bytes) then
        (buf, none)
      else
        match decode_bytes ((buf.drop (header_end buf)).take
            (parsed_payload_length header_bytes * 14)) with
        | none => (buf.drop (preamble_pos buf + 1), none)
        | some (payload_bytes, payload_errors) =>
          if 0 < end_marker_errors buf (parsed_payload_length header_bytes) then
            (buf.drop (preamble_pos buf + 1), none)
          else
            (buf.drop (end_marker_end buf (parsed_payload_length header_bytes)),
             some { sequence_number := header_bytes.getD 2 0
                    payload_length := parsed_payload_length header_bytes
                    payload := payload_bytes
                    header_errors := header_errors
                    payload_errors := payload_errors
                    total_packet_bits :=
                      end_marker_end buf (parsed_payload_length header_bytes) -
                        preamble_pos buf
                    packet_number := packetsReceived + 1 })

/-- Embedding of the duplicated PacketDecoder.try_decode_packet in
src/packet_qpsk_rx.py.  Its body is identical to the decoder.py copy
except for the minimum-size gate, which omits the minimal-payload term:
len(PREAMBLE) + len(START_MARKER) + 56 + len(END_MARKER) = 88 bits. -/
def try_decode_packet_rx (buf : List Nat) (packetsReceived : Nat) :
    List Nat × Option Packet :=
  if buf.length < PREAMBLE.length + START_MARKER.length + 56 + END_MARKER.length then
    (buf, none)
  else if find_pattern buf PREAMBLE 0 = -1 then (buf, none)
  else if buf.length < expected_start_pos buf + START_MARKER.length then (buf, none)
  else if 0 < start_marker_errors buf then (buf.drop (preamble_pos buf + 1), none)
  else if buf.length < header_start buf + 56 then (buf, none)
  else
    match decode_bytes ((buf.drop (header_start buf)).take 56) with
    | none => (buf.drop (preamble_pos buf + 1), none)
    | some (header_bytes, header_errors) =>
      if header_bytes.length < 4 then (buf, none)
      else if parsed_payload_length header_bytes < 1 ∨
          255 < parsed_payload_length header_bytes then
        (buf.drop (preamble_pos buf + 1), none)
      else if buf.length < header_start buf + 56 +
          parsed_payload_length header_bytes * 14 + END_MARKER.length then
        (buf, none)
      else
        match decode_bytes ((buf.drop (header_start buf + 56)).take
            (parsed_payload_length header_bytes * 14)) with
        | none => (buf.drop (preamble_pos buf + 1), none)
        | some (payload_bytes, payload_errors) =>
          if 0 < countMismatch ((buf.drop (header_start buf + 56 +
              parsed_payload_length header_bytes * 14)).take END_MARKER.length)
              END_MARKER then
            (buf.drop (preamble_pos buf + 1), none)
          else
            (buf.drop (header_start buf + 56 +
                parsed_payload_length header_bytes * 14 + END_MARKER.length),
             some { sequence_number := header_bytes.getD 2 0
                    payload_length := parsed_payload_length header_bytes
                    payload := payload_bytes
                    header_errors := header_errors
                    payload_errors := payload_errors
                    total_packet_bits :=
                      header_start buf + 56 +
                        parsed_payload_length header_bytes * 14 +
                        END_MARKER.length - preamble_pos buf
                    packet_number := packetsReceived + 1 })

/-! Helper lemmas shared by the claim theorems. -/

/-- A list of length 7 is a literal seven-element list. -/
theorem exists_seven (l : List Nat) (h : l.length = 7) :
    ∃ a0 a1 a2 a3 a4 a5 a6, l = [a0, a1, a2, a3, a4, a5, a6] :=
  match l, h with
  | [a0, a1, a2, a3, a4, a5, a6], _ => ⟨a0, a1, a2, a3, a4, a5, a6, rfl⟩

/-- decode_7bits succeeds on every list of length 7: every branch of the
syndrome analysis returns a value. -/
theorem decode_7bits_isSome (l : List Nat) (h : l.length = 7) :
    ∃ p, decode_7bits l = some p := by
  obtain ⟨a0, a1, a2, a3, a4, a5, a6, rfl⟩ := exists_seven l h
  simp only [decode_7bits]
  split
  · exact ⟨_, rfl⟩
  · split
    · exact ⟨_, rfl⟩
    · exact ⟨_, rfl⟩

/-- decode_bytes succeeds on every input list: the only failure paths
would be wrong-length codewords, and the chunking always hands
decode_7bits exactly 7 bits. -/
theorem decode_bytes_isSome (bits : List Nat) :
    ∃ r, decode_bytes bits = some r := by
  suffices H : ∀ n (l : List Nat), l.length ≤ n → ∃ r, decode_bytes l = some r from
    H bits.length bits le_rfl
  intro n
  induction n with
  | zero =>
    intro l hl
    rcases l with _ | ⟨b0, l⟩
    · exact ⟨([], 0), rfl⟩
    · simp at hl
  | succ n ih =>
    intro l hl
    rcases l with _ | ⟨b0, l⟩; · exact ⟨([], 0), rfl⟩
    rcases l with _ | ⟨b1, l⟩; · exact ⟨([], 0), rfl⟩
    rcases l with _ | ⟨b2, l⟩; · exact ⟨([], 0), rfl⟩
    rcases l with _ | ⟨b3, l⟩; · exact ⟨([], 0), rfl⟩
    rcases l with _ | ⟨b4, l⟩; · exact ⟨([], 0), rfl⟩
    rcases l with _ | ⟨b5, l⟩; · exact ⟨([], 0), rfl⟩
    rcases l with _ | ⟨b6, l⟩; · exact ⟨([], 0), rfl⟩
    rcases l with _ | ⟨b7, l⟩; · exact ⟨([], 0), rfl⟩
    rcases l with _ | ⟨b8, l⟩; · exact ⟨([], 0), rfl⟩
    rcases l with _ | ⟨b9, l⟩; · exact ⟨([], 0), rfl⟩
    rcases l with _ | ⟨b10, l⟩; · exact ⟨([], 0), rfl⟩
    rcases l with _ | ⟨b11, l⟩; · exact ⟨([], 0), rfl⟩
    rcases l with _ | ⟨b12, l⟩; · exact ⟨([], 0), rfl⟩
    rcases l with _ | ⟨b13, l⟩; · exact ⟨([], 0), rfl⟩
    obtain ⟨⟨hn1, e1⟩, h1⟩ := decode_7bits_isSome [b0, b1, b2, b3, b4, b5, b6] rfl
    obtain ⟨⟨ln1, e2⟩, h2⟩ := decode_7bits_isSome [b7, b8, b9, b10, b11, b12, b13] rfl
    obtain ⟨⟨ds, es⟩, hrec⟩ := ih l (by simp at hl; omega)
    exact ⟨(nibblesToByte hn1 ln1 :: ds, (if e1 || e2 then 1 else 0) + es),
      by simp only [decode_bytes, h1, h2, hrec]⟩

/-- Codeword of the high nibble of a byte, as produced inside
encode_bytes. -/
def encHiCw (byte : Nat) : List Nat := (encode_4bits (hiNibble byte)).getD []

/-- Codeword of the low nibble of a byte, as produced inside
encode_bytes. -/
def encLoCw (byte : Nat) : List Nat := (encode_4bits (loNibble byte)).getD []

/-- encode_4bits always succeeds on a high nibble. -/
theorem encode_4bits_hi (byte : Nat) :
    encode_4bits (hiNibble byte) = some (encHiCw byte) := rfl

/-- encode_4bits always succeeds on a low nibble. -/
theorem encode_4bits_lo (byte : Nat) :
    encode_4bits (loNibble byte) = some (encLoCw byte) := rfl

/-- The high codeword has 7 bits. -/
theorem encHiCw_length (byte : Nat) : (encHiCw byte).length = 7 := rfl

/-- The low codeword has 7 bits. -/
theorem encLoCw_length (byte : Nat) : (encLoCw byte).length = 7 := rfl

/-- Peeling one 14-bit chunk off decode_bytes, stated for two explicit
7-bit codewords in front. -/
theorem decode_bytes_chunk (c1 c2 rest : List Nat)
    (h1 : c1.length = 7) (h2 : c2.length = 7) :
    decode_bytes (c1 ++ (c2 ++ rest)) =
      match decode_7bits c1, decode_7bits c2 with
      | some (hn, e1), some (ln, e2) =>
        match decode_bytes rest with
        | some (ds, es) =>
          some (nibblesToByte hn ln :: ds, (if e1 || e2 then 1 else 0) + es)
        | none => none
      | _, _ => none := by
  obtain ⟨a0, a1, a2, a3, a4, a5, a6, rfl⟩ := exists_seven c1 h1
  obtain ⟨b0, b1, b2, b3, b4, b5, b6, rfl⟩ := exists_seven c2 h2
  rfl

set_option maxRecDepth 4000 in
/-- A syndrome-free decode of the high codeword of a byte returns that
high nibble with no correction. -/
theorem decode_encHiCw : ∀ byte < 256,
    decode_7bits (encHiCw byte) = some (hiNibble byte, false) := by decide

set_option maxRecDepth 4000 in
/-- A syndrome-free decode of the low codeword of a byte returns that
low nibble with no correction. -/
theorem decode_encLoCw : ∀ byte < 256,
    decode_7bits (encLoCw byte) = some (loNibble byte, false) := by decide

set_option maxRecDepth 4000 in
/-- Recombining the two nibbles of a byte value below 256 gives the byte
back. -/
theorem nibbles_recombine : ∀ byte < 256,
    nibblesToByte (hiNibble byte) (loNibble byte) = byte := by decide

/-- Whether a 14-bit chunk requires a correction in at least one of its
two 7-bit codewords, i.e. whether decode_bytes counts it as one error. -/
def chunkNeedsFix (c : List Nat) : Bool :=
  match decode_7bits (c.take 7), decode_7bits ((c.drop 7).take 7) with
  | some (_, e1), some (_, e2) => e1 || e2
  | _, _ => false

/-- Loop invariant of find_pattern over the scanned prefix of offsets
0..i-1: either no scanned window was within max_errors (no record, best
still -1), or the record (best, min_errors) holds the earliest offset j
achieving the least recorded distance m, with 0 < m (a zero distance
would have returned at once) and m within max_errors. -/
def fpInv (data pat : List Nat) (max_errors i : Nat) (best : Int)
    (minErr : Option Nat) : Prop :=
  (minErr = none ∧ best = -1 ∧ ∀ k < i, max_errors < windowDist data pat k) ∨
  (∃ m : Nat, ∃ j : Nat, minErr = some m ∧ best = (j : Int) ∧ j < i ∧
    windowDist data pat j = m ∧ 0 < m ∧ m ≤ max_errors ∧
    (∀ k < i, windowDist data pat k ≤ max_errors → m ≤ windowDist data pat k) ∧
    (∀ k < j, windowDist data pat k ≤ max_errors → m < windowDist data pat k))

/-- Specification of the find_pattern result over offsets 0..N: the
earliest exact match when one exists; otherwise the earliest offset
achieving the minimum window distance, provided that minimum is within
max_errors; otherwise -1. -/
def fpResult (data pat : List Nat) (max_errors N : Nat) (r : Int) : Prop :=
  ((∃ k, k ≤ N ∧ windowDist data pat k = 0) →
    ∃ j : Nat, r = (j : Int) ∧ j ≤ N ∧ windowDist data pat j = 0 ∧
      ∀ k < j, windowDist data pat k ≠ 0)
  ∧ ((∀ k, k ≤ N → windowDist data pat k ≠ 0) →
     (∃ k, k ≤ N ∧ windowDist data pat k ≤ max_errors) →
    ∃ j : Nat, r = (j : Int) ∧ j ≤ N ∧ windowDist data pat j ≤ max_errors ∧
      (∀ k, k ≤ N → windowDist data pat j ≤ windowDist data pat k) ∧
      (∀ k < j, windowDist data pat j < windowDist data pat k))
  ∧ ((∀ k, k ≤ N → max_errors < windowDist data pat k) → r = -1)

/-- Under the loop invariant, no scanned offset has an exact match. -/
theorem fpInv_no_zero (data pat : List Nat) (max_errors i : Nat)
    (best : Int) (minErr : Option Nat)
    (hinv : fpInv data pat max_errors i best minErr) :
    ∀ k < i, windowDist data pat k ≠ 0 := by
  intro k hk h0
  rcases hinv with ⟨-, -, hall⟩ | ⟨m, j, -, -, -, -, hm0, -, hmin, -⟩
  · have := hall k hk
    omega
  · by_cases hkm : windowDist data pat k ≤ max_errors
    · have := hmin k hk hkm
      omega
    · omega

/-- Main loop lemma for find_pattern: running the scan from offset i with
rem remaining offsets, under the invariant for the scanned prefix,
produces a result satisfying the full specification over offsets 0..N. -/
theorem findPatternGo_correct (data pat : List Nat) (max_errors : Nat) :
    ∀ rem i (best : Int) (minErr : Option Nat),
      i + rem = data.length - pat.length + 1 →
      fpInv data pat max_errors i best minErr →
      fpResult data pat max_errors (data.length - pat.length)
        (findPatternGo data pat max_errors i rem best minErr) := by
  intro rem
  induction rem with
  | zero =>
    intro i best minErr hi hinv
    rcases hinv with ⟨hm, hb, hall⟩ | ⟨m, j, hm, hb, hj, hd, hm0, hmx, hmin, hfirst⟩
    · subst hm hb
      simp only [findPatternGo]
      refine ⟨?_, ?_, ?_⟩
      · rintro ⟨k, hk, hk0⟩
        have := hall k (by omega)
        omega
      · rintro - ⟨k, hk, hkm⟩
        have := hall k (by omega)
        omega
      · intro _
        rfl
    · subst hm hb
      simp only [findPatternGo, if_pos hmx]
      refine ⟨?_, ?_, ?_⟩
      · rintro ⟨k, hk, hk0⟩
        by_cases hkm : windowDist data pat k ≤ max_errors
        · have := hmin k (by omega) hkm
          omega
        · omega
      · intro hnz hex
        refine ⟨j, rfl, by omega, by omega, ?_, ?_⟩
        · intro k hk
          by_cases hkm : windowDist data pat k ≤ max_errors
          · have := hmin k (by omega) hkm
            omega
          · omega
        · intro k hk
          by_cases hkm : windowDist data pat k ≤ max_errors
          · have := hfirst k hk hkm
            omega
          · omega
      · intro hall2
        have := hall2 j (by omega)
        omega
  | succ rem ih =>
    intro i best minErr hi hinv
    have hiN : i ≤ data.length - pat.length := by omega
    by_cases hcond : windowDist data pat i ≤ max_errors ∧
        windowDist data pat i < minErr.getD (windowDist data pat i + 1)
    · by_cases h0 : windowDist data pat i = 0
      · have heq : findPatternGo data pat max_errors i (rem + 1) best minErr
            = (i : Int) := by
          simp only [findPatternGo]
          rw [if_pos hcond, if_pos h0]
        rw [heq]
        have hno0 := fpInv_no_zero data pat max_errors i best minErr hinv
        refine ⟨?_, ?_, ?_⟩
        · intro _
          exact ⟨i, rfl, hiN, h0, hno0⟩
        · intro hnz _
          exact absurd h0 (hnz i hiN)
        · intro hall
          have := hall i hiN
          omega
      · have heq : findPatternGo data pat max_errors i (rem + 1) best minErr
            = findPatternGo data pat max_errors (i + 1) rem (i : Int)
                (some (windowDist data pat i)) := by
          simp [findPatternGo, hcond, h0]
        rw [heq]
        refine ih (i + 1) (i : Int) (some (windowDist data pat i)) (by omega) ?_
        refine Or.inr ⟨windowDist data pat i, i, rfl, rfl, by omega, rfl,
          by omega, hcond.1, ?_, ?_⟩
        · intro k hk hkm
          rcases Nat.lt_or_ge k i with hki | hki
          · rcases hinv with ⟨-, -, hall⟩ | ⟨m, j, hm, -, -, -, -, -, hmin, -⟩
            · have := hall k hki
              omega
            · have h1 := hmin k hki hkm
              have h2 : windowDist data pat i < m := by
                have := hcond.2
                rw [hm] at this
                simpa using this
              omega
          · have : k = i := by omega
            subst this
            omega
        · intro k hk hkm
          rcases hinv with ⟨hm, -, hall⟩ | ⟨m, j, hm, -, -, -, -, -, hmin, -⟩
          · have := hall k hk
            omega
          · have h1 := hmin k (by omega) hkm
            have h2 : windowDist data pat i < m := by
              have := hcond.2
              rw [hm] at this
              simpa using this
            omega
    · have heq : findPatternGo data pat max_errors i (rem + 1) best minErr
          = findPatternGo data pat max_errors (i + 1) rem best minErr := by
        simp only [findPatternGo]
        rw [if_neg hcond]
      rw [heq]
      refine ih (i + 1) best minErr (by omega) ?_
      rcases hinv with ⟨hm, hb, hall⟩ | ⟨m, j, hm, hb, hj, hd, hm0, hmx, hmin, hfirst⟩
      · refine Or.inl ⟨hm, hb, ?_⟩
        intro k hk
        rcases Nat.lt_or_ge k i with hki | hki
        · exact hall k hki
        · have : k = i := by omega
          subst this
          subst hm
          simp only [Option.getD] at hcond
          omega
      · refine Or.inr ⟨m, j, hm, hb, by omega, hd, hm0, hmx, ?_, hfirst⟩
        intro k hk hkm
        rcases Nat.lt_or_ge k i with hki | hki
        · exact hmin k hki hkm
        · have : k = i := by omega
          subst this
          subst hm
          simp only [Option.getD] at hcond
          omega

/-! Claim theorems. -/

/-- C1: the claim says decoding any single-bit corruption of an encoded
nibble recovers the nibble.  The code disagrees: for the all-zero nibble,
a flip at position 0 produces syndrome bits (1,1,0), the decoder computes
error position 6 and flips bit index 5 instead of the corrupted bit, so
the returned data is [1,0,0,0] with the corrected flag set rather than
the original [0,0,0,0].  This evaluates the code at that failing input. -/
theorem decode_7bits_miscorrects_flip0 :
    encode_4bits [0, 0, 0, 0] = some [0, 0, 0, 0, 0, 0, 0] ∧
    decode_7bits (flipAt [0, 0, 0, 0, 0, 0, 0] 0) = some ([1, 0, 0, 0], true) ∧
    ¬ decode_7bits (flipAt [0, 0, 0, 0, 0, 0, 0] 0) = some ([0, 0, 0, 0], true) := by
  decide

/-- C10: decode_bytes is total.  Whatever the input bit list (0/1 valued
or not), it only ever passes exact 7-bit codewords to decode_7bits, so
the wrong-length ValueError can never fire and decode_bytes always
returns a value; consequently the except branch of try_decode_packet is
unreachable through header or payload decoding. -/
theorem decode_bytes_never_raises (bits : List Nat) :
    ∃ decoded errs, decode_bytes bits = some (decoded, errs) := by
  obtain ⟨⟨ds, es⟩, h⟩ := decode_bytes_isSome bits
  exact ⟨ds, es, h⟩

/-- C2: Hamming encoding and decoding of a byte sequence round-trips:
for every byte list (values below 256), encode_bytes succeeds and
decode_bytes returns exactly the original bytes with error count 0. -/
theorem encode_decode_roundtrip (B : List Nat) (hB : ∀ b ∈ B, b < 256) :
    ∃ bits, encode_bytes B = some bits ∧ decode_bytes bits = some (B, 0) := by
  induction B with
  | nil => exact ⟨[], rfl, rfl⟩
  | cons b rest ih =>
    obtain ⟨bits, henc, hdec⟩ := ih (fun x hx => hB x (List.mem_cons_of_mem b hx))
    have hb : b < 256 := hB b (List.mem_cons_self b rest)
    refine ⟨encHiCw b ++ (encLoCw b ++ bits), ?_, ?_⟩
    · simp only [encode_bytes, encode_4bits_hi, encode_4bits_lo, henc]
      rfl
    · rw [decode_bytes_chunk _ _ _ (encHiCw_length b) (encLoCw_length b)]
      rw [decode_encHiCw b hb, decode_encLoCw b hb, hdec]
      simp [nibbles_recombine b hb]

/-- C3: find_pattern returns the earliest offset with window distance 0
to the pattern when one exists; otherwise, when some offset is within
max_errors, the earliest offset achieving the minimum distance over all
offsets 0 to len(data) - len(pattern); otherwise -1 (not found). -/
theorem find_pattern_finds_best (data pat : List Nat) (max_errors : Nat)
    (hp : pat.length ≤ data.length) :
    ((∃ k, k ≤ data.length - pat.length ∧ windowDist data pat k = 0) →
      ∃ j : Nat, find_pattern data pat max_errors = (j : Int) ∧
        j ≤ data.length - pat.length ∧ windowDist data pat j = 0 ∧
        ∀ k < j, windowDist data pat k ≠ 0)
    ∧ ((∀ k, k ≤ data.length - pat.length → windowDist data pat k ≠ 0) →
       (∃ k, k ≤ data.length - pat.length ∧ windowDist data pat k ≤ max_errors) →
      ∃ j : Nat, find_pattern data pat max_errors = (j : Int) ∧
        j ≤ data.length - pat.length ∧ windowDist data pat j ≤ max_errors ∧
        (∀ k, k ≤ data.length - pat.length →
          windowDist data pat j ≤ windowDist data pat k) ∧
        (∀ k < j, windowDist data pat j < windowDist data pat k))
    ∧ ((∀ k, k ≤ data.length - pat.length → max_errors < windowDist data pat k) →
      find_pattern data pat max_errors = -1) := by
  have h := findPatternGo_correct data pat max_errors
    (data.length - pat.length + 1) 0 (-1) none (by omega)
    (Or.inl ⟨rfl, rfl, fun k hk => absurd hk (Nat.not_lt_zero k)⟩)
  rw [find_pattern, if_pos hp]
  exact h

/-- Witness for C3 at data [0,0,1,0,1,1] and pattern [1,1] with
max_errors 0: the unique exact match is at offset 4. -/
theorem find_pattern_finds_best_witness :
    (List.length [1, 1] ≤ List.length [0, 0, 1, 0, 1, 1] ∧
      find_pattern [0, 0, 1, 0, 1, 1] [1, 1] 0 = 4) ∧
    ((∃ k, k ≤ 4 ∧ windowDist [0, 0, 1, 0, 1, 1] [1, 1] k = 0) →
      ∃ j : Nat, find_pattern [0, 0, 1, 0, 1, 1] [1, 1] 0 = (j : Int) ∧
        j ≤ 4 ∧ windowDist [0, 0, 1, 0, 1, 1] [1, 1] j = 0 ∧
        ∀ k < j, windowDist [0, 0, 1, 0, 1, 1] [1, 1] k ≠ 0) := by
  refine ⟨⟨by decide, by decide⟩, ?_⟩
  have h := (find_pattern_finds_best [0, 0, 1, 0, 1, 1] [1, 1] 0 (by decide)).1
  exact h

/-- The three validation failures of try_decode_packet after an exact
preamble was found: the 8 bits after the preamble differ from
START_MARKER; or the markers check out and the decoded header parses to
a payload length outside 1..255; or markers and length check out, the
full frame is in the buffer, but the 8 bits after the payload differ
from END_MARKER.  Each case carries the buffer-length bounds that the
control flow checks before reaching that validation. -/
def validation_failure (buf : List Nat) : Prop :=
  (expected_start_pos buf + START_MARKER.length ≤ buf.length ∧
    0 < start_marker_errors buf)
  ∨ (expected_start_pos buf + START_MARKER.length ≤ buf.length ∧
     start_marker_errors buf = 0 ∧
     header_end buf ≤ buf.length ∧
     ∃ hb he, decode_bytes (header_bits buf) = some (hb, he) ∧
       HEADER_LENGTH ≤ hb.length ∧
       (parsed_payload_length hb < MIN_PAYLOAD_LENGTH ∨
        MAX_PAYLOAD_LENGTH < parsed_payload_length hb))
  ∨ (expected_start_pos buf + START_MARKER.length ≤ buf.length ∧
     start_marker_errors buf = 0 ∧
     header_end buf ≤ buf.length ∧
     ∃ hb he, decode_bytes (header_bits buf) = some (hb, he) ∧
       HEADER_LENGTH ≤ hb.length ∧
       MIN_PAYLOAD_LENGTH ≤ parsed_payload_length hb ∧
       parsed_payload_length hb ≤ MAX_PAYLOAD_LENGTH ∧
       end_marker_end buf (parsed_payload_length hb) ≤ buf.length ∧
       0 < end_marker_errors buf (parsed_payload_length hb))

/-- The insufficient-data or no-preamble situations of
try_decode_packet: buffer below the minimal packet size; no exact
preamble anywhere; or an exact preamble so close to the buffer end that
the start marker, the header, or the full frame does not fit. -/
def insufficient_data (buf : List Nat) : Prop :=
  buf.length < min_packet_size
  ∨ find_pattern buf PREAMBLE 0 = -1
  ∨ (∃ pp : Nat, find_pattern buf PREAMBLE 0 = (pp : Int) ∧
      min_packet_size ≤ buf.length ∧
      (buf.length < expected_start_pos buf + START_MARKER.length
       ∨ (expected_start_pos buf + START_MARKER.length ≤ buf.length ∧
          start_marker_errors buf = 0 ∧ buf.length < header_end buf)
       ∨ (expected_start_pos buf + START_MARKER.length ≤ buf.length ∧
          start_marker_errors buf = 0 ∧ header_end buf ≤ buf.length ∧
          ∃ hb he, decode_bytes (header_bits buf) = some (hb, he) ∧
            HEADER_LENGTH ≤ hb.length ∧
            MIN_PAYLOAD_LENGTH ≤ parsed_payload_length hb ∧
            parsed_payload_length hb ≤ MAX_PAYLOAD_LENGTH ∧
            buf.length < end_marker_end buf (parsed_payload_length hb))))

/-- C4: whenever a decode attempt finds an exact preamble at position pp
but then fails one of the three validations (start marker mismatch,
header payload length outside 1..255, end marker mismatch), it removes
exactly pp + 1 bits from the buffer head and returns no packet; being a
total function of the buffer it never raises to the caller. -/
theorem try_decode_discards_on_validation_failure (buf : List Nat) (n pp : Nat)
    (hsize : min_packet_size ≤ buf.length)
    (hpp : find_pattern buf PREAMBLE 0 = (pp : Int))
    (hval : validation_failure buf) :
    try_decode_packet buf n = (buf.drop (pp + 1), none) := by
  have hpre : preamble_pos buf = pp := by
    unfold preamble_pos
    rw [hpp]
    rfl
  unfold try_decode_packet
  rw [if_neg (by omega), hpp, if_neg (by omega)]
  rcases hval with ⟨hfit, hsm⟩ |
    ⟨hfit, hsm0, hhfit, hb, he, hdb, hhblen, hplbad⟩ |
    ⟨hfit, hsm0, hhfit, hb, he, hdb, hhblen, hpl1, hpl2, hemfit, hem⟩
  · rw [if_neg (by omega), if_pos hsm, hpre]
  · rw [if_neg (by omega), if_neg (by omega), if_neg (by omega), hdb]
    dsimp only
    rw [if_neg (by omega), if_pos hplbad, hpre]
  · rw [if_neg (by omega), if_neg (by omega), if_neg (by omega), hdb]
    dsimp only
    rw [if_neg (by omega), if_neg (by omega), if_neg (by omega)]
    obtain ⟨⟨pb, pe⟩, hpb⟩ := decode_bytes_isSome
      ((buf.drop (header_end buf)).take (parsed_payload_length hb * 14))
    rw [hpb]
    dsimp only
    rw [if_pos hem, hpre]

/-- Witness buffer for C4: an exact preamble at position 0 followed by
zeros, 102 bits in total; the start marker check fails. -/
def c4buf : List Nat := PREAMBLE ++ List.replicate 86 0

/-- Witness for C4 at c4buf: the preamble is at 0, the start-marker
validation fails, and the attempt discards exactly one bit. -/
theorem try_decode_discards_on_validation_failure_witness :
    (min_packet_size ≤ c4buf.length ∧
      find_pattern c4buf PREAMBLE 0 = ((0 : Nat) : Int) ∧
      validation_failure c4buf) ∧
    try_decode_packet c4buf 0 = (c4buf.drop 1, none) :=
  ⟨⟨by decide, by decide, Or.inl ⟨by decide, by decide⟩⟩,
    try_decode_discards_on_validation_failure c4buf 0 0 (by decide) (by decide)
      (Or.inl ⟨by decide, by decide⟩)⟩

/-- C5: whenever a decode attempt cannot proceed for lack of data or
lack of a preamble (buffer below the minimal packet size, no exact
preamble match anywhere, or an exact preamble whose start marker,
header or full frame extends past the end of the buffer), the attempt
returns no packet and leaves the bit buffer completely unchanged. -/
theorem try_decode_keeps_buffer_on_insufficient_data (buf : List Nat) (n : Nat)
    (h : insufficient_data buf) :
    try_decode_packet buf n = (buf, none) := by
  unfold try_decode_packet
  rcases h with hlt | hnone | ⟨pp, hpp, hsize, hcases⟩
  · rw [if_pos hlt]
  · by_cases hg : buf.length < min_packet_size
    · rw [if_pos hg]
    · rw [if_neg hg, if_pos hnone]
  · rw [if_neg (by omega), hpp, if_neg (by omega)]
    rcases hcases with hfit | ⟨hfit, hsm0, hhdr⟩ |
      ⟨hfit, hsm0, hhfit, hb, he, hdb, hhblen, hpl1, hpl2, hemshort⟩
    · rw [if_pos hfit]
    · rw [if_neg (by omega), if_neg (by omega), if_pos hhdr]
    · rw [if_neg (by omega), if_neg (by omega), if_neg (by omega), hdb]
      dsimp only
      rw [if_neg (by omega), if_neg (by omega), if_pos hemshort]

/-- Witness for C5 at the empty buffer: far below the minimal packet
size, so nothing is discarded. -/
theorem try_decode_keeps_buffer_on_insufficient_data_witness :
    insufficient_data [] ∧ try_decode_packet [] 0 = ([], none) :=
  ⟨Or.inl (by decide),
    try_decode_keeps_buffer_on_insufficient_data [] 0 (Or.inl (by decide))⟩

/-- C6: decode_bytes processes exactly the full 14-bit chunks of its
input: it returns length / 14 bytes, decoding is unchanged when the
trailing partial chunk is cut off (trailing bits are silently dropped),
and the error count is the number of chunk indices whose chunk needed a
correction in at least one of its two codewords (one per byte, not one
per corrected bit). -/
theorem decode_bytes_chunks (bits : List Nat) :
    ∃ decoded errs, decode_bytes bits = some (decoded, errs) ∧
      decoded.length = bits.length / 14 ∧
      errs = ((List.range (bits.length / 14)).filter
        (fun k => chunkNeedsFix ((bits.drop (14 * k)).take 14))).length ∧
      decode_bytes bits = decode_bytes (bits.take (14 * (bits.length / 14))) := by
  suffices H : ∀ n (l : List Nat), l.length ≤ n →
      ∃ decoded errs, decode_bytes l = some (decoded, errs) ∧
        decoded.length = l.length / 14 ∧
        errs = ((List.range (l.length / 14)).filter
          (fun k => chunkNeedsFix ((l.drop (14 * k)).take 14))).length ∧
        decode_bytes l = decode_bytes (l.take (14 * (l.length / 14))) from
    H bits.length bits le_rfl
  intro n
  induction n with
  | zero =>
    intro l hl
    rcases l with _ | ⟨b0, l⟩
    · exact ⟨[], 0, rfl, rfl, rfl, rfl⟩
    · simp at hl
  | succ n ih =>
    intro l hl
    rcases l with _ | ⟨b0, l⟩; · exact ⟨[], 0, rfl, by simp, by simp, by simp [decode_bytes]⟩
    rcases l with _ | ⟨b1, l⟩; · exact ⟨[], 0, rfl, by simp, by simp, by simp [decode_bytes]⟩
    rcases l with _ | ⟨b2, l⟩; · exact ⟨[], 0, rfl, by simp, by simp, by simp [decode_bytes]⟩
    rcases l with _ | ⟨b3, l⟩; · exact ⟨[], 0, rfl, by simp, by simp, by simp [decode_bytes]⟩
    rcases l with _ | ⟨b4, l⟩; · exact ⟨[], 0, rfl, by simp, by simp, by simp [decode_bytes]⟩
    rcases l with _ | ⟨b5, l⟩; · exact ⟨[], 0, rfl, by simp, by simp, by simp [decode_bytes]⟩
    rcases l with _ | ⟨b6, l⟩; · exact ⟨[], 0, rfl, by simp, by simp, by simp [decode_bytes]⟩
    rcases l with _ | ⟨b7, l⟩; · exact ⟨[], 0, rfl, by simp, by simp, by simp [decode_bytes]⟩
    rcases l with _ | ⟨b8, l⟩; · exact ⟨[], 0, rfl, by simp, by simp, by simp [decode_bytes]⟩
    rcases l with _ | ⟨b9, l⟩; · exact ⟨[], 0, rfl, by simp, by simp, by simp [decode_bytes]⟩
    rcases l with _ | ⟨b10, l⟩; · exact ⟨[], 0, rfl, by simp, by simp, by simp [decode_bytes]⟩
    rcases l with _ | ⟨b11, l⟩; · exact ⟨[], 0, rfl, by simp, by simp, by simp [decode_bytes]⟩
    rcases l with _ | ⟨b12, l⟩; · exact ⟨[], 0, rfl, by simp, by simp, by simp [decode_bytes]⟩
    rcases l with _ | ⟨b13, l⟩; · exact ⟨[], 0, rfl, by simp, by simp, by simp [decode_bytes]⟩
    obtain ⟨⟨hn1, e1⟩, h1⟩ := decode_7bits_isSome [b0, b1, b2, b3, b4, b5, b6] rfl
    obtain ⟨⟨ln1, e2⟩, h2⟩ := decode_7bits_isSome [b7, b8, b9, b10, b11, b12, b13] rfl
    obtain ⟨ds, es, hdec, hlen, herrs, htrail⟩ := ih l (by simp at hl; omega)
    have hLcons : (b0 :: b1 :: b2 :: b3 :: b4 :: b5 :: b6 :: b7 :: b8 :: b9 ::
        b10 :: b11 :: b12 :: b13 :: l).length = l.length + 14 := by simp
    have hdiv : (l.length + 14) / 14 = l.length / 14 + 1 := by omega
    have hdrop14 : (b0 :: b1 :: b2 :: b3 :: b4 :: b5 :: b6 :: b7 :: b8 :: b9 ::
        b10 :: b11 :: b12 :: b13 :: l).drop 14 = l := rfl
    refine ⟨nibblesToByte hn1 ln1 :: ds, (if e1 || e2 then 1 else 0) + es,
      ?_, ?_, ?_, ?_⟩
    · simp only [decode_bytes, h1, h2, hdec]
    · simp only [List.length_cons, hlen]
      omega
    · rw [hLcons, hdiv, List.range_succ_eq_map, List.filter_cons]
      have hp0 : chunkNeedsFix (((b0 :: b1 :: b2 :: b3 :: b4 :: b5 :: b6 ::
          b7 :: b8 :: b9 :: b10 :: b11 :: b12 :: b13 :: l).drop (14 * 0)).take 14)
          = (e1 || e2) := by
        rw [show ((b0 :: b1 :: b2 :: b3 :: b4 :: b5 :: b6 :: b7 :: b8 :: b9 ::
            b10 :: b11 :: b12 :: b13 :: l).drop (14 * 0)).take 14
            = [b0, b1, b2, b3, b4, b5, b6, b7, b8, b9, b10, b11, b12, b13] from rfl]
        simp only [chunkNeedsFix]
        rw [show List.take 7
            [b0, b1, b2, b3, b4, b5, b6, b7, b8, b9, b10, b11, b12, b13]
            = [b0, b1, b2, b3, b4, b5, b6] from rfl]
        rw [show (List.drop 7
            [b0, b1, b2, b3, b4, b5, b6, b7, b8, b9, b10, b11, b12, b13]).take 7
            = [b7, b8, b9, b10, b11, b12, b13] from rfl]
        rw [h1, h2]
      have hshift : ∀ k, ((b0 :: b1 :: b2 :: b3 :: b4 :: b5 :: b6 :: b7 :: b8 ::
          b9 :: b10 :: b11 :: b12 :: b13 :: l).drop (14 * Nat.succ k)).take 14
          = (l.drop (14 * k)).take 14 := by
        intro k
        rw [show 14 * Nat.succ k = 14 + 14 * k by omega, ← List.drop_drop, hdrop14]
      have hcong : ∀ k ∈ List.range (l.length / 14),
          ((fun k => chunkNeedsFix (((b0 :: b1 :: b2 :: b3 :: b4 :: b5 :: b6 ::
            b7 :: b8 :: b9 :: b10 :: b11 :: b12 :: b13 :: l).drop (14 * k)).take 14))
            ∘ Nat.succ) k
          = (fun k => chunkNeedsFix ((l.drop (14 * k)).take 14)) k := by
        intro k _
        simp only [Function.comp_apply]
        rw [hshift k]
      simp only [List.filter_map, List.length_map]
      rw [List.filter_congr hcong, hp0]
      by_cases he : (e1 || e2) = true
      · simp [he, List.length_map, ← herrs]
        omega
      · simp [he, List.length_map, ← herrs]
    · have h14eq : 14 * ((b0 :: b1 :: b2 :: b3 :: b4 :: b5 :: b6 :: b7 :: b8 ::
          b9 :: b10 :: b11 :: b12 :: b13 :: l).length / 14)
          = 14 + 14 * (l.length / 14) := by
        rw [hLcons]; omega
      have htr : decode_bytes (l.take (14 * (l.length / 14))) = some (ds, es) :=
        htrail.symm.trans hdec
      rw [h14eq, List.take_add]
      rw [show (b0 :: b1 :: b2 :: b3 :: b4 :: b5 :: b6 :: b7 :: b8 :: b9 ::
          b10 :: b11 :: b12 :: b13 :: l).take 14
          = [b0, b1, b2, b3, b4, b5, b6, b7, b8, b9, b10, b11, b12, b13] from rfl]
      rw [hdrop14]
      simp only [List.cons_append, List.nil_append]
      simp only [decode_bytes, h1, h2, hdec, htr]

/-- Witness for C2 at the two-byte message [72, 73]. -/
theorem encode_decode_roundtrip_witness :
    (∀ b ∈ [72, 73], b < 256) ∧
    ∃ bits, encode_bytes [72, 73] = some bits ∧
      decode_bytes bits = some ([72, 73], 0) :=
  ⟨by decide, encode_decode_roundtrip [72, 73] (by decide)⟩

/-- C7: building the packet for message [72, 73] (the bytes of HI) with
sequence number 5 yields a 116-bit frame (16 preamble + 8 start marker +
56 encoded header + 28 encoded payload + 8 end marker) whose header
records payload length 2, and a fresh decode of exactly that frame
consumes the whole buffer and returns sequence number 5, payload
[72, 73], payload length 2, and zero header and payload errors. -/
theorem build_HI_frame_roundtrip :
    (build_packet [72, 73] 5).map
        (fun p => (p.1.length, p.2.payload_length, p.2.total_bits))
      = some (116, 2, 116) ∧
    (build_packet [72, 73] 5).map (fun p => try_decode_packet p.1 0)
      = some ([], some ⟨5, 2, [72, 73], 0, 0, 116, 1⟩) := by
  decide

/-- Counterexample buffer for C8: a preamble whose following bits fail
the start-marker check, followed by a second preamble that also fails,
padded with zeros to 103 bits. -/
def c8buf : List Nat := PREAMBLE ++ PREAMBLE ++ List.replicate 71 0

/-- C8 counterexample: on c8buf the first decode attempt returns None
after discarding one bit, and a second attempt with no new bits returns
None but discards sixteen further bits, so the buffer states after the
first and after the second call differ: a repeated attempt does make
hidden progress. -/
theorem second_attempt_makes_progress :
    (try_decode_packet c8buf 0).2 = none ∧
    (try_decode_packet (try_decode_packet c8buf 0).1 0).2 = none ∧
    ¬ (try_decode_packet (try_decode_packet c8buf 0).1 0).1
        = (try_decode_packet c8buf 0).1 := by
  decide

/-- C8 amended: a decode attempt never rewrites the buffer arbitrarily;
every exit path leaves either the untouched buffer, the buffer with
preamble_pos + 1 bits discarded, or the buffer with the whole decoded
frame removed, so the post-attempt buffer is always a drop of the
pre-attempt buffer (monotone progress from the head), even though a
second attempt after a None result may discard further bits or decode a
packet. -/
theorem try_decode_packet_only_drops (buf : List Nat) (n : Nat) :
    ∃ k, (try_decode_packet buf n).1 = buf.drop k := by
  unfold try_decode_packet
  repeat' split
  all_goals first
    | exact ⟨_, rfl⟩
    | exact ⟨0, (List.drop_zero buf).symm⟩

/-- PREAMBLE is 16 bits long. -/
theorem preamble_length : PREAMBLE.length = 16 := rfl

/-- START_MARKER is 8 bits long. -/
theorem start_marker_length : START_MARKER.length = 8 := rfl

/-- END_MARKER is 8 bits long. -/
theorem end_marker_length : END_MARKER.length = 8 := rfl

/-- The decoder.py minimum packet size is 102 bits. -/
theorem min_packet_size_eq : min_packet_size = 102 := rfl

/-- C9 amended: the decoder.py and packet_qpsk_rx.py copies of
try_decode_packet agree on every buffer whose length is below the rx
gate (88 bits) or at least the canonical gate (102 bits); the two
implementations differ only in that gate, so only buffers of length 88
to 101 can tell them apart. -/
theorem rx_agrees_outside_gate_window (buf : List Nat) (n : Nat)
    (h : buf.length < 88 ∨ 102 ≤ buf.length) :
    try_decode_packet_rx buf n = try_decode_packet buf n := by
  unfold try_decode_packet_rx try_decode_packet
  rcases h with h | h
  · rw [if_pos (show buf.length < PREAMBLE.length + START_MARKER.length + 56 +
        END_MARKER.length by
          rw [preamble_length, start_marker_length, end_marker_length]; omega),
      if_pos (show buf.length < min_packet_size by rw [min_packet_size_eq]; omega)]
  · rw [if_neg (show ¬ buf.length < PREAMBLE.length + START_MARKER.length + 56 +
        END_MARKER.length by
          rw [preamble_length, start_marker_length, end_marker_length]; omega),
      if_neg (show ¬ buf.length < min_packet_size by rw [min_packet_size_eq]; omega)]
    rfl

/-- Witness for the C9 amended theorem at the empty buffer. -/
theorem rx_agrees_outside_gate_window_witness :
    ((List.length ([] : List Nat) < 88 ∨ 102 ≤ List.length ([] : List Nat)) ∧
      try_decode_packet_rx [] 0 = try_decode_packet [] 0) :=
  ⟨Or.inl (by decide), rx_agrees_outside_gate_window [] 0 (Or.inl (by decide))⟩

/-- Counterexample buffer for C9: an exact preamble followed by 72 zero
bits, 88 bits in total, sitting exactly at the rx gate. -/
def c9buf : List Nat := PREAMBLE ++ List.replicate 72 0

/-- C9 counterexample: on an 88-bit buffer the packet_qpsk_rx.py decoder
scans, finds the preamble, fails the start-marker check and discards one
bit, while the decoder.py version is still below its 102-bit minimum and
returns with the buffer untouched, so the two implementations disagree. -/
theorem rx_and_canonical_disagree :
    try_decode_packet_rx c9buf 0 = (c9buf.drop 1, none) ∧
    try_decode_packet c9buf 0 = (c9buf, none) ∧
    ¬ try_decode_packet_rx c9buf 0 = try_decode_packet c9buf 0 := by
  decide

end QPSK
